import Mathlib

/-
Shallow embedding of the rsl-polynomials crate (a rewrite of GSL's polynomial
routines) and proofs about it.

Modelling conventions:
* `f64` values are modelled as real numbers `ℝ`; `Complex64` as `ℂ`.
  `f64::sqrt`, `f64::acos`, `f64::cos`, `f64::powf` become `Real.sqrt`,
  `Real.arccos`, `Real.cos`, `Real.rpow`.  Since `ℝ` carries no NaN, infinity
  or negative zero, float-comparison branches become total-order branches.
* Fallible Rust functions returning `Result<T, PolyError>` become
  `Except PolyError T`.  Code paths that can panic (index out of bounds,
  `usize` overflow checks as in a debug build) are modelled with `Option`,
  `none` standing for a panic.
* `Vec<T>` becomes `List T`; in-place loops over vectors become folds over
  `List.set` / `List.getD`, with panics only where an index can actually be
  out of bounds in the source.
-/

namespace RSL

/-- Error type mirroring `src/error.rs` (`PolyError`). The `Box<str>` payloads
become `String`. -/
inductive PolyError where
  | InvalidCoefficients : PolyError
  | Trivial : PolyError
  | IncorrectOrder : Nat → PolyError
  | ConstantPoly : PolyError
  | NotQuadratic : String → PolyError
  | NoRealRoots : PolyError
  | NotRealCoefficients : PolyError
  | NanDiscriminant : PolyError
  | ComplexTof64Conversion : String → PolyError
deriving DecidableEq

namespace solve

/-- Embedding of `solve::linear::solve_real_linear` from `src/solve/linear.rs`.
The Rust `match a { 0.0 => Err(ConstantPoly), _ => Ok(-b / a) }` becomes an
exact zero test on `ℝ` (the float pattern `0.0` matches `+0.0` and `-0.0`,
both of which are the single real number `0`). -/
noncomputable def solve_real_linear (a b : ℝ) : Except PolyError ℝ :=
  if a = 0 then .error .ConstantPoly else .ok (-b / a)

/-- Embedding of `solve::quadratic::solve_real_quadratic` from
`src/solve/quadratic.rs`.  On `ℝ` the order is total, so the
`partial_cmp` match collapses to the three-way comparison below and the
`None => unreachable!("NaN discriminant")` arm of the source has no
counterpart. -/
noncomputable def solve_real_quadratic (a b c : ℝ) : Except PolyError (List ℝ) :=
  if a = 0 then
    match solve_real_linear b c with
    | .error e => .error e
    | .ok x => .ok [x]
  else
    let det := b ^ 2 - 4 * a * c
    if det < 0 then .error .NoRealRoots
    else if det = 0 then .ok [-b / (2 * a)]
    else .ok [(-b + Real.sqrt det) / (2 * a), (-b - Real.sqrt det) / (2 * a)]

end solve

/-- Embedding of `f64::signum` for non-NaN arguments: `-1.0` for negative
values (and `-0.0`), `1.0` for positive values (and `+0.0`); on `ℝ` the two
float zeros are the single value `0`, for which the Rust call sites of this
crate receive `+0.0` and hence `1.0`. -/
noncomputable def rsignum (x : ℝ) : ℝ := if x < 0 then -1 else 1

/-- Insertion step of the ascending comparison sort modelling
`ans.sort_by(|a, b| a.partial_cmp(b).unwrap())` (total on `ℝ`, which has no
NaN). -/
noncomputable def insertAsc (x : ℝ) : List ℝ → List ℝ
  | [] => [x]
  | y :: ys => if x ≤ y then x :: y :: ys else y :: insertAsc x ys

/-- Ascending comparison sort modelling `Vec::sort_by` with the
`partial_cmp`-based comparator (a stable sort, like Rust's). -/
noncomputable def sortAsc : List ℝ → List ℝ
  | [] => []
  | x :: xs => insertAsc x (sortAsc xs)

namespace solve

/-- Embedding of `solve::cubic::solve_real_cubic` from `src/solve/cubic.rs`:
the closed-form solver for the monic cubic `x³ + ax² + bx + c`.  The source
builds `ans = vec![NAN; 3]`, overwrites all three slots in every branch and
sorts before returning (the triple-root branch returns early, unsorted); the
branches here construct the same three-element lists directly.
`powf(1.0/3.0)` becomes real exponentiation by `1/3`. -/
noncomputable def solve_real_cubic (a b c : ℝ) : Except PolyError (List ℝ) :=
  let q := a ^ 2 - 3 * b
  let r := 2 * a ^ 3 - 9 * a * b + 27 * c
  let q_cap := q / 9
  let r_cap := r / 54
  let q_cap3 := q_cap ^ 3
  let r_cap2 := r_cap ^ 2
  let cq_cap3 := 2916 * q ^ 3
  let cr_cap2 := 729 * r ^ 2
  if r_cap = 0 ∧ q_cap = 0 then
    .ok [-a / 3, -a / 3, -a / 3]
  else if cr_cap2 = cq_cap3 then
    let sqrtq := Real.sqrt q_cap
    if 0 < r then
      .ok (RSL.sortAsc [-2 * sqrtq - a / 3, sqrtq - a / 3, sqrtq - a / 3])
    else
      .ok (RSL.sortAsc [-sqrtq - a / 3, -sqrtq - a / 3, 2 * sqrtq - a / 3])
  else if r_cap2 < q_cap3 then
    let sgnr := RSL.rsignum r
    let ratv := sgnr * Real.sqrt (r_cap2 / q_cap3)
    let theta := Real.arccos ratv
    let norm := -2 * Real.sqrt q_cap
    .ok (RSL.sortAsc
      [norm * Real.cos (theta / 3) - a / 3,
       norm * Real.cos ((theta + 2 * Real.pi) / 3) - a / 3,
       norm * Real.cos ((theta - 2 * Real.pi) / 3) - a / 3])
  else
    let sgnr := RSL.rsignum r
    let a_cap := -sgnr * (|r_cap| + Real.sqrt (r_cap2 - q_cap3)) ^ ((1 : ℝ) / 3)
    let b_cap := q / a_cap
    let x := a_cap + b_cap - a / 3
    .ok (RSL.sortAsc [x, x, x])

end solve

/-- Embedding of `Polynomial::eval` from `src/polynomial.rs` (generic over the
scalar type, as in the source).  The Rust code is
`coef.iter().rev().copied().reduce(|res, coef| coef + x * res).unwrap_or(zero)`:
the reversed coefficient list is folded with the Horner step, the first
(highest-order) coefficient seeding the accumulator, and the empty list gives
zero. -/
def eval {T : Type} [CommRing T] (coef : List T) (x : T) : T :=
  match coef.reverse with
  | [] => 0
  | c :: cs => cs.foldl (fun res cf => cf + x * res) c

/-- Inner loop of `Polynomial::eval_derivs`
(`for j in 1..=jmax { res[j] = x * res[j] + res[j - 1]; }`):
each step reads the already-updated previous slot. -/
def innerLoop {T : Type} [CommRing T] (x : T) (jmax : Nat) (res : List T) : List T :=
  (List.range jmax).foldl
    (fun r t => r.set (t + 1) (x * r.getD (t + 1) 0 + r.getD t 0)) res

/-- Body of the outer loop of `Polynomial::eval_derivs` at iteration `i`:
`k = last_idx - i; res[0] = x * res[0] + coef[k - 1];` then the inner loop up
to `jmax = if nmax < k { nmax } else { k - 1 }`. -/
def outerStep {T : Type} [CommRing T] (coef : List T) (x : T) (last_idx nmax : Nat)
    (r : List T) (i : Nat) : List T :=
  let k := last_idx - i
  let r0 := r.set 0 (x * r.getD 0 0 + coef.getD (k - 1) 0)
  let jmax := if nmax < k then nmax else k - 1
  innerLoop x jmax r0

/-- Outer loop of `Polynomial::eval_derivs` (`for i in 0..last_idx`). -/
def outerLoop {T : Type} [CommRing T] (coef : List T) (x : T) (last_idx nmax : Nat)
    (res : List T) : List T :=
  (List.range last_idx).foldl (outerStep coef x last_idx nmax) res

/-- Body of the factorial-scaling loop of `Polynomial::eval_derivs`: the state
is the running factorial and the result vector; `f = f * i` precedes
`res[i] = res[i] * f`. -/
def scaleStep {T : Type} [CommRing T] (st : T × List T) (i : Nat) : T × List T :=
  (st.1 * (i : T), st.2.set i (st.2.getD i 0 * (st.1 * (i : T))))

/-- Factorial-scaling loop of `Polynomial::eval_derivs`
(`res.iter_mut().enumerate().take(nmax + 1).skip(2)` with the running
factorial seeded at one). -/
def scaleLoop {T : Type} [CommRing T] (nmax : Nat) (res : List T) : List T :=
  (((List.range (nmax + 1)).drop 2).foldl scaleStep ((1 : T), res)).2

/-- Embedding of `Polynomial::eval_derivs` from `src/polynomial.rs` (generic
over the scalar type, as in the source; `T::from(i).unwrap()` becomes the
natural-number cast).  `none` models the panics of the source:
`self.coef.len() - 1` underflows for an empty coefficient list, and
`self.coef.len().min(res.len()) - 1` underflows when `n` is zero (debug-build
`usize` arithmetic; with `n = 0` a release build still panics indexing
`res[0]` for any polynomial of degree at least one).  On the surviving path
every index the loops touch is in bounds, so the total `set`/`getD`
operations are faithful to the source's checked indexing. -/
def eval_derivs {T : Type} [CommRing T] (coef : List T) (x : T) (n : Nat) :
    Option (List T) :=
  if coef.length = 0 then none
  else if n = 0 then none
  else
    let res := List.replicate n (0 : T)
    let last_idx := coef.length - 1
    let nmax := min coef.length n - 1
    let lead := coef.getD last_idx 0
    let filled := (List.range (nmax + 1)).foldl (fun r i => r.set i lead) res
    some (scaleLoop nmax (outerLoop coef x last_idx nmax filled))

/-- Representation of a polynomial (`src/polynomial.rs`), instantiated at the
`Complex64` scalar type, modelled as `ℂ`: coefficient `coef[i]` multiplies
`x^i`. -/
structure Polynomial where
  coef : List ℂ

/-- Embedding of `Polynomial::new`: the zero polynomial `[0]`. -/
def Polynomial.new : Polynomial := ⟨[0]⟩

/-- Embedding of `Polynomial::build`.  The coefficient test
`x.is_nan() | x.is_infinite()` is abstracted as a Boolean predicate `bad`,
since `ℂ` has no NaN or infinite values; every theorem proved about `build`
holds for an arbitrary such predicate. -/
def Polynomial.build (bad : ℂ → Bool) (coef : List ℂ) : Except PolyError Polynomial :=
  if coef.length = 0 then .ok Polynomial.new
  else if coef.any bad then .error .InvalidCoefficients
  else .ok ⟨coef⟩

/-- Loop of `Polynomial::to_trimmed` on the reversed coefficient list: remove
elements from the front while they are zero (i.e. drop the trailing zero
coefficients of the polynomial). -/
noncomputable def trimZerosRev : List ℂ → List ℂ
  | [] => []
  | c :: rest => if c = 0 then trimZerosRev rest else c :: rest

/-- Embedding of `Polynomial::to_trimmed`: the one-coefficient polynomial is
returned as is, otherwise trailing zero coefficients are removed. -/
noncomputable def Polynomial.to_trimmed (p : Polynomial) : Polynomial :=
  if p.coef.length = 1 then p
  else ⟨(trimZerosRev p.coef.reverse).reverse⟩

/-- Embedding of `Polynomial::to_monic`: trim, then divide every coefficient
by the leading one.  The `monic.coef.last().unwrap()` of the source is
modelled with `getLast?.getD 0`, total; the unwrap can only panic when every
coefficient of a longer-than-one polynomial is zero, a case none of the
claims exercises. -/
noncomputable def Polynomial.to_monic (p : Polynomial) : Polynomial :=
  if p.coef.length = 1 then p
  else
    let m := p.to_trimmed
    let a := m.coef.getLast?.getD 0
    ⟨m.coef.map (fun e => e / a)⟩

/-- Embedding of `utils::check_if_correct_order`. -/
def check_if_correct_order (coef : List ℂ) (expected_order : Nat) : Except PolyError Unit :=
  if coef.length ≠ expected_order + 1 then .error (.IncorrectOrder expected_order)
  else .ok ()

/-- Embedding of `utils::check_if_real_coefficients`: the loop stops at the
first coefficient with non-zero imaginary part.  The `to_f64` conversion of
the imaginary part never fails for the modelled scalar type, so the
`unreachable!` arm of the source has no counterpart. -/
noncomputable def check_if_real_coefficients : List ℂ → Except PolyError Unit
  | [] => .ok ()
  | c :: rest =>
    if c.im = 0 then check_if_real_coefficients rest else .error .NotRealCoefficients

/-- Placeholder for the `format!` payload that the source attaches to its
conversion error (the payload is never inspected). -/
def convMsg : String := "complex"

/-- Embedding of `utils::convert_complex_to_real`: on `ℂ` every value is
finite, so only the imaginary-part test of the source can fail; on success the
real part is returned. -/
noncomputable def convert_complex_to_real (number : ℂ) : Except PolyError ℝ :=
  if number.im ≠ 0 then .error (.ComplexTof64Conversion convMsg)
  else .ok number.re

/-- Error-propagating conversion loop
`for c in coef { reals.push(convert_complex_to_real(*c)?); }`. -/
noncomputable def convertAll : List ℂ → Except PolyError (List ℝ)
  | [] => .ok []
  | c :: rest =>
    match convert_complex_to_real c with
    | .error e => .error e
    | .ok x =>
      match convertAll rest with
      | .error e => .error e
      | .ok xs => .ok (x :: xs)

/-- Embedding of `Polynomial::solve_real_quadratic`: order validator, realness
validator, conversion of all coefficients, then the core solver called as
`solve(reals[2], reals[1], reals[0])`.  After the order check the list has
exactly three elements, so the checked indexing of the source cannot panic and
total `getD` is faithful. -/
noncomputable def Polynomial.solve_real_quadratic (p : Polynomial) :
    Except PolyError (List ℝ) :=
  match check_if_correct_order p.coef 2 with
  | .error e => .error e
  | .ok _ =>
    match check_if_real_coefficients p.coef with
    | .error e => .error e
    | .ok _ =>
      match convertAll p.coef with
      | .error e => .error e
      | .ok reals =>
        solve.solve_real_quadratic (reals.getD 2 0) (reals.getD 1 0) (reals.getD 0 0)

/-- Embedding of `Polynomial::solve_real_cubic`: order validator, realness
validator, monic normalization, conversion of `monic.coef.iter().skip(1)`,
then the core solver called as `solve(reals[2], reals[1], reals[0])`.  The
source indexes `reals[2]` on a vector that has `monic.coef.len() - 1`
elements; when the trimmed monic polynomial has fewer than four coefficients
that indexing panics, modelled by `none`. -/
noncomputable def Polynomial.solve_real_cubic (p : Polynomial) :
    Option (Except PolyError (List ℝ)) :=
  match check_if_correct_order p.coef 3 with
  | .error e => some (.error e)
  | .ok _ =>
    match check_if_real_coefficients p.coef with
    | .error e => some (.error e)
    | .ok _ =>
      let monic := p.to_monic
      match convertAll (monic.coef.drop 1) with
      | .error e => some (.error e)
      | .ok reals =>
        match reals[2]?, reals[1]?, reals[0]? with
        | some a, some b, some c => some (solve.solve_real_cubic a b c)
        | _, _, _ => none

end RSL

/-- Claim C9: `solve_real_linear(a, b)` fails with `ConstantPoly` if and only
if `a == 0.0` exactly (no tolerance band around zero), and otherwise returns
`Ok(-b/a)`. -/
theorem claim_C9_linear_exact_zero_test (a b : ℝ) :
    (RSL.solve.solve_real_linear a b = .error .ConstantPoly ↔ a = 0) ∧
    (a ≠ 0 → RSL.solve.solve_real_linear a b = .ok (-b / a)) := by
  constructor
  · constructor
    · intro h
      by_contra ha
      simp only [RSL.solve.solve_real_linear, if_neg ha] at h
      exact Except.noConfusion h
    · intro ha
      simp [RSL.solve.solve_real_linear, ha]
  · intro ha
    simp [RSL.solve.solve_real_linear, ha]

/-- Witness for C9 at the concrete input `a = 2`, `b = -6`: the solver returns
the root `3` and does not fail. -/
theorem claim_C9_witness :
    RSL.solve.solve_real_linear 2 (-6) = .ok 3 ∧
    RSL.solve.solve_real_linear 0 5 = .error .ConstantPoly := by
  constructor
  · have h2 := (claim_C9_linear_exact_zero_test 2 (-6)).2 (by norm_num)
    rw [h2]
    norm_num
  · exact (claim_C9_linear_exact_zero_test 0 5).1.mpr rfl

/-- Claim C2: for `a ≠ 0` the quadratic solver computes `D = b² - 4ac` and
returns `Err(NoRealRoots)` when `D < 0`, the single root `[-b/(2a)]` when
`D = 0`, and the two roots `[(-b+√D)/(2a), (-b-√D)/(2a)]` (plus branch first)
when `D > 0`; for `a = 0` it delegates to the linear solver on `(b, c)`,
returning a one-element sequence, and propagates `ConstantPoly` when `b = 0`
as well. -/
theorem claim_C2_quadratic_case_split (a b c : ℝ) :
    (a ≠ 0 → b ^ 2 - 4 * a * c < 0 →
      RSL.solve.solve_real_quadratic a b c = .error .NoRealRoots) ∧
    (a ≠ 0 → b ^ 2 - 4 * a * c = 0 →
      RSL.solve.solve_real_quadratic a b c = .ok [-b / (2 * a)]) ∧
    (a ≠ 0 → 0 < b ^ 2 - 4 * a * c →
      RSL.solve.solve_real_quadratic a b c =
        .ok [(-b + Real.sqrt (b ^ 2 - 4 * a * c)) / (2 * a),
             (-b - Real.sqrt (b ^ 2 - 4 * a * c)) / (2 * a)]) ∧
    (a = 0 → b ≠ 0 →
      RSL.solve.solve_real_quadratic a b c = .ok [-c / b]) ∧
    (a = 0 → b = 0 →
      RSL.solve.solve_real_quadratic a b c = .error .ConstantPoly) := by
  refine ⟨?_, ?_, ?_, ?_, ?_⟩
  · intro ha hd
    simp [RSL.solve.solve_real_quadratic, ha, hd]
  · intro ha hd
    simp [RSL.solve.solve_real_quadratic, ha, hd]
  · intro ha hd
    simp [RSL.solve.solve_real_quadratic, ha, not_lt.mpr hd.le, ne_of_gt hd]
  · intro ha hb
    simp [RSL.solve.solve_real_quadratic, ha, RSL.solve.solve_real_linear, hb]
  · intro ha hb
    simp [RSL.solve.solve_real_quadratic, ha, RSL.solve.solve_real_linear, hb]

/-- Witness for C2: concrete instances of each interesting branch, obtained by
applying the case-split theorem at `(1, 0, -1)` (where `D = 4 > 0`),
at `(1, -2, 1)` (where `D = 0`), at `(1, 0, 1)` (where `D = -4 < 0`), and at
the degenerate inputs `(0, 2, -6)` and `(0, 0, 5)`. -/
theorem claim_C2_witness :
    RSL.solve.solve_real_quadratic 1 0 (-1) = .ok [1, -1] ∧
    RSL.solve.solve_real_quadratic 1 (-2) 1 = .ok [1] ∧
    RSL.solve.solve_real_quadratic 1 0 1 = .error .NoRealRoots ∧
    RSL.solve.solve_real_quadratic 0 2 (-6) = .ok [3] ∧
    RSL.solve.solve_real_quadratic 0 0 5 = .error .ConstantPoly := by
  refine ⟨?_, ?_, ?_, ?_, ?_⟩
  · have h := (claim_C2_quadratic_case_split 1 0 (-1)).2.2.1 (by norm_num) (by norm_num)
    rw [h]
    have hs : Real.sqrt ((0 : ℝ) ^ 2 - 4 * 1 * (-1)) = 2 := by
      rw [show ((0 : ℝ) ^ 2 - 4 * 1 * (-1)) = 2 ^ 2 by norm_num]
      exact Real.sqrt_sq (by norm_num)
    rw [hs]
    norm_num
  · have h := (claim_C2_quadratic_case_split 1 (-2) 1).2.1 (by norm_num) (by norm_num)
    rw [h]
    norm_num
  · exact (claim_C2_quadratic_case_split 1 0 1).1 (by norm_num) (by norm_num)
  · have h := (claim_C2_quadratic_case_split 0 2 (-6)).2.2.2.1 rfl (by norm_num)
    rw [h]
    norm_num
  · exact (claim_C2_quadratic_case_split 0 0 5).2.2.2.2 rfl rfl

/-- Unfolding lemma for `RSL.eval`: Horner evaluation satisfies the natural
recurrence on the coefficient list. -/
theorem RSL.eval_cons {T : Type} [CommRing T] (c : T) (cs : List T) (x : T) :
    RSL.eval (c :: cs) x = c + x * RSL.eval cs x := by
  unfold RSL.eval
  rcases h : cs.reverse with _ | ⟨e, es⟩
  · have hnil : cs = [] := List.reverse_eq_nil_iff.mp h
    subst hnil
    simp
  · have hrev : (c :: cs).reverse = e :: (es ++ [c]) := by
      rw [List.reverse_cons, h]
      simp
    rw [hrev]
    simp [List.foldl_append]

/-- Claim C3: `eval` returns `Σ c[i]·xⁱ` for every coefficient sequence
(computed by the Horner recurrence embedded in `RSL.eval`), and returns the
field's zero value on an empty coefficient sequence. -/
theorem claim_C3_eval_is_polynomial_sum {T : Type} [CommRing T] (coef : List T) (x : T) :
    RSL.eval coef x = ∑ i ∈ Finset.range coef.length, coef.getD i 0 * x ^ i ∧
    RSL.eval ([] : List T) x = 0 := by
  constructor
  · induction coef with
    | nil => simp [RSL.eval]
    | cons c cs ih =>
      rw [RSL.eval_cons, ih]
      have hlen : (c :: cs).length = cs.length + 1 := rfl
      rw [hlen]
      rw [Finset.sum_range_succ' (fun i => (c :: cs).getD i 0 * x ^ i) cs.length]
      simp only [List.getD_cons_succ, List.getD_cons_zero, pow_zero, mul_one]
      rw [Finset.mul_sum]
      rw [add_comm]
      congr 1
      refine Finset.sum_congr rfl (fun i _ => ?_)
      ring
  · simp [RSL.eval]

/-- Helper: the order validator fails on a wrong coefficient count. -/
theorem RSL.check_order_fail (coef : List ℂ) (k : Nat) (h : coef.length ≠ k + 1) :
    RSL.check_if_correct_order coef k = .error (.IncorrectOrder k) := by
  simp [RSL.check_if_correct_order, h]

/-- Helper: the order validator passes on the expected coefficient count. -/
theorem RSL.check_order_ok (coef : List ℂ) (k : Nat) (h : coef.length = k + 1) :
    RSL.check_if_correct_order coef k = .ok () := by
  simp [RSL.check_if_correct_order, h]

/-- Helper: the realness validator fails when some coefficient has non-zero
imaginary part. -/
theorem RSL.check_real_fail (coef : List ℂ) (h : ∃ c ∈ coef, c.im ≠ 0) :
    RSL.check_if_real_coefficients coef = .error .NotRealCoefficients := by
  induction coef with
  | nil =>
    obtain ⟨c, hc, -⟩ := h
    exact absurd hc (List.not_mem_nil c)
  | cons d rest ih =>
    by_cases hd : d.im = 0
    · rw [show RSL.check_if_real_coefficients (d :: rest) =
          RSL.check_if_real_coefficients rest from by
            simp [RSL.check_if_real_coefficients, hd]]
      apply ih
      obtain ⟨c, hc, hne⟩ := h
      rcases List.mem_cons.mp hc with h1 | h2
      · exact absurd (h1 ▸ hd) hne
      · exact ⟨c, h2, hne⟩
    · simp [RSL.check_if_real_coefficients, hd]

/-- Claim C10: `Polynomial::build` on an empty coefficient slice succeeds with
the canonical zero polynomial `[0]`, whatever the NaN/infinity test would say
of any coefficient: the check is skipped for empty input and no error is
possible. -/
theorem claim_C10_build_empty (bad : ℂ → Bool) :
    RSL.Polynomial.build bad [] = .ok RSL.Polynomial.new ∧
    RSL.Polynomial.new.coef = [0] :=
  ⟨rfl, rfl⟩

/-- Counterexample for C8 as stated: a polynomial whose only coefficient is
the imaginary unit (so a non-real coefficient is present) is rejected with
`IncorrectOrder 2`, not `NotRealCoefficients`, because the order validator
runs first and short-circuits. -/
theorem claim_C8_counterexample :
    RSL.Polynomial.solve_real_quadratic ⟨[Complex.I]⟩ = .error (.IncorrectOrder 2) ∧
    Complex.I.im = 1 ∧
    ((Except.error (RSL.PolyError.IncorrectOrder 2) : Except RSL.PolyError (List ℝ)) =
      .error .NotRealCoefficients) = False := by
  refine ⟨?_, Complex.I_im, by simp⟩
  unfold RSL.Polynomial.solve_real_quadratic
  rw [RSL.check_order_fail [Complex.I] 2 (by simp)]

/-- Claim C8 (amended): the validators run in order and short-circuit.  A
coefficient count different from 3 (resp. 4) makes the quadratic (resp. cubic)
solver return `IncorrectOrder 2` (resp. `IncorrectOrder 3`); with the correct
count, any coefficient with non-zero imaginary part makes it return
`NotRealCoefficients`; in all four cases no roots are computed and no partial
result is returned. -/
theorem claim_C8_amended_validator_order (p : RSL.Polynomial) :
    (p.coef.length ≠ 3 →
      p.solve_real_quadratic = .error (.IncorrectOrder 2)) ∧
    (p.coef.length = 3 → (∃ c ∈ p.coef, c.im ≠ 0) →
      p.solve_real_quadratic = .error .NotRealCoefficients) ∧
    (p.coef.length ≠ 4 →
      p.solve_real_cubic = some (.error (.IncorrectOrder 3))) ∧
    (p.coef.length = 4 → (∃ c ∈ p.coef, c.im ≠ 0) →
      p.solve_real_cubic = some (.error .NotRealCoefficients)) := by
  refine ⟨?_, ?_, ?_, ?_⟩
  · intro h
    unfold RSL.Polynomial.solve_real_quadratic
    rw [RSL.check_order_fail p.coef 2 h]
  · intro hlen hex
    unfold RSL.Polynomial.solve_real_quadratic
    rw [RSL.check_order_ok p.coef 2 hlen, RSL.check_real_fail p.coef hex]
  · intro h
    unfold RSL.Polynomial.solve_real_cubic
    rw [RSL.check_order_fail p.coef 3 h]
  · intro hlen hex
    unfold RSL.Polynomial.solve_real_cubic
    rw [RSL.check_order_ok p.coef 3 hlen, RSL.check_real_fail p.coef hex]

/-- Witness for the amended C8 at concrete polynomials: a constant polynomial
asked for quadratic and cubic roots, and correct-length polynomials with an
imaginary coefficient. -/
theorem claim_C8_witness :
    RSL.Polynomial.solve_real_quadratic ⟨[0]⟩ = .error (.IncorrectOrder 2) ∧
    RSL.Polynomial.solve_real_quadratic ⟨[Complex.I, 0, 0]⟩ = .error .NotRealCoefficients ∧
    RSL.Polynomial.solve_real_cubic ⟨[0]⟩ = some (.error (.IncorrectOrder 3)) ∧
    RSL.Polynomial.solve_real_cubic ⟨[Complex.I, 0, 0, 0]⟩ =
      some (.error .NotRealCoefficients) := by
  refine ⟨?_, ?_, ?_, ?_⟩
  · exact (claim_C8_amended_validator_order ⟨[0]⟩).1 (by simp)
  · exact (claim_C8_amended_validator_order ⟨[Complex.I, 0, 0]⟩).2.1 (by simp)
      ⟨Complex.I, by simp, by simp⟩
  · exact (claim_C8_amended_validator_order ⟨[0]⟩).2.2.1 (by simp)
  · exact (claim_C8_amended_validator_order ⟨[Complex.I, 0, 0, 0]⟩).2.2.2 (by simp)
      ⟨Complex.I, by simp, by simp⟩

/-- Helper: sorting a constant three-element list is the identity. -/
theorem RSL.sortAsc_triple (x : ℝ) : RSL.sortAsc [x, x, x] = [x, x, x] := by
  simp [RSL.sortAsc, RSL.insertAsc]

/-- Helper: the Cardano-branch root expression is negative whenever the
cube-root base and the `Q` invariant are positive. -/
theorem RSL.neg_curt_sum_neg (B c : ℝ) (hB : 0 < B) (hc : 0 < c) :
    -B ^ ((1 : ℝ) / 3) + c / -B ^ ((1 : ℝ) / 3) - 1 / 3 < 0 := by
  have ht : 0 < B ^ ((1 : ℝ) / 3) := Real.rpow_pos_of_pos hB _
  have h2 : c / -B ^ ((1 : ℝ) / 3) < 0 := div_neg_of_pos_of_neg hc (by linarith)
  linarith

/-- Claim C1 (evaluation of the code at the claimed inputs): the public
`solve_real_cubic` on the polynomial built from `[-6, 11, -6, 1]` forwards
`(1, -6, 11)` — not `(-6, 11, -6)` — to the core cubic solver, because
`monic.coef.iter().skip(1)` drops the constant coefficient of the ascending
sequence instead of the leading one; the call therefore solves
`x³ + x² - 6x + 11` and does not return `[1, 2, 3]`.  The same happens for
`[-4913, 867, -51, 1]`, where the result is not `[17, 17, 17]`.  With the
intended argument order `(c₂, c₁, c₀)` the core solver does return `[1, 2, 3]`
(trigonometric branch) and `[17, 17, 17]` (triple-root branch). -/
theorem claim_C1_cubic_wrapper_drops_constant_term :
    RSL.Polynomial.solve_real_cubic ⟨[-6, 11, -6, 1]⟩ =
      some (RSL.solve.solve_real_cubic 1 (-6) 11) ∧
    (RSL.solve.solve_real_cubic 1 (-6) 11 = .ok [1, 2, 3]) = False ∧
    RSL.solve.solve_real_cubic (-6) 11 (-6) = .ok [1, 2, 3] ∧
    RSL.Polynomial.solve_real_cubic ⟨[-4913, 867, -51, 1]⟩ =
      some (RSL.solve.solve_real_cubic 1 (-51) 867) ∧
    (RSL.solve.solve_real_cubic 1 (-51) 867 = .ok [17, 17, 17]) = False ∧
    RSL.solve.solve_real_cubic (-51) 867 (-4913) = .ok [17, 17, 17] := by
  refine ⟨?_, ?_, ?_, ?_, ?_, ?_⟩
  · norm_num [RSL.Polynomial.solve_real_cubic, RSL.check_if_correct_order,
      RSL.check_if_real_coefficients, RSL.Polynomial.to_monic, RSL.Polynomial.to_trimmed,
      RSL.trimZerosRev, RSL.convertAll, RSL.convert_complex_to_real]
  · refine eq_false ?_
    intro h
    unfold RSL.solve.solve_real_cubic at h
    norm_num [RSL.rsignum] at h
    rw [RSL.sortAsc_triple] at h
    simp only [List.cons.injEq] at h
    obtain ⟨h1, h2, -⟩ := h
    exact absurd (h1.symm.trans h2) (by norm_num)
  · unfold RSL.solve.solve_real_cubic
    norm_num [RSL.rsignum]
    have h1 : Real.pi / 2 / 3 = Real.pi / 6 := by ring
    have h2 : (Real.pi / 2 + 2 * Real.pi) / 3 = Real.pi - Real.pi / 6 := by ring
    have h3 : (Real.pi / 2 - 2 * Real.pi) / 3 = -(Real.pi / 2) := by ring
    rw [h1, h2, h3, Real.cos_pi_sub, Real.cos_neg, Real.cos_pi_div_two, Real.cos_pi_div_six]
    have hv : (Real.sqrt 3)⁻¹ * Real.sqrt 3 = 1 := inv_mul_cancel₀ (by positivity)
    have e1 : -(2 * (Real.sqrt 3)⁻¹ * (Real.sqrt 3 / 2)) + 2 = (1 : ℝ) := by
      calc -(2 * (Real.sqrt 3)⁻¹ * (Real.sqrt 3 / 2)) + 2
          = -((Real.sqrt 3)⁻¹ * Real.sqrt 3) + 2 := by ring
        _ = 1 := by rw [hv]; norm_num
    have e2 : -(2 * (Real.sqrt 3)⁻¹ * -(Real.sqrt 3 / 2)) + 2 = (3 : ℝ) := by
      calc -(2 * (Real.sqrt 3)⁻¹ * -(Real.sqrt 3 / 2)) + 2
          = (Real.sqrt 3)⁻¹ * Real.sqrt 3 + 2 := by ring
        _ = 3 := by rw [hv]; norm_num
    rw [e1, e2]
    norm_num [RSL.sortAsc, RSL.insertAsc]
  · norm_num [RSL.Polynomial.solve_real_cubic, RSL.check_if_correct_order,
      RSL.check_if_real_coefficients, RSL.Polynomial.to_monic, RSL.Polynomial.to_trimmed,
      RSL.trimZerosRev, RSL.convertAll, RSL.convert_complex_to_real]
  · refine eq_false ?_
    intro h
    unfold RSL.solve.solve_real_cubic at h
    norm_num [RSL.rsignum] at h
    rw [RSL.sortAsc_triple] at h
    simp only [List.cons.injEq, and_true, and_self] at h
    have hkey := RSL.neg_curt_sum_neg (|(11935 : ℝ) / 27| + Real.sqrt 1713481 / Real.sqrt 9) 154
      (add_pos_of_pos_of_nonneg (abs_pos.mpr (by norm_num)) (by positivity)) (by norm_num)
    linarith [hkey, h]
  · unfold RSL.solve.solve_real_cubic
    norm_num

/-- Claim C5 (evaluation of the code at a failing input): on a 4-coefficient
polynomial whose leading coefficient is zero — here `x² - 2` padded with a
zero cubic term — `solve_real_cubic` does not cascade to the quadratic
solver: `to_monic` trims the zero leading coefficient, `skip(1)` then leaves
only two entries, and the indexing `reals[2]` panics (modelled as `none`). -/
theorem claim_C5_zero_leading_coefficient_panics :
    RSL.Polynomial.solve_real_cubic ⟨[-2, 0, 1, 0]⟩ = none := by
  norm_num [RSL.Polynomial.solve_real_cubic, RSL.check_if_correct_order,
    RSL.check_if_real_coefficients, RSL.Polynomial.to_monic, RSL.Polynomial.to_trimmed,
    RSL.trimZerosRev, RSL.convertAll, RSL.convert_complex_to_real]

/-- Helper: `set` away from an index leaves `getD` unchanged. -/
theorem RSL.getD_set_ne {T : Type} (v d : T) :
    ∀ (l : List T) (i j : Nat), i ≠ j → (l.set i v).getD j d = l.getD j d := by
  intro l
  induction l with
  | nil => intro i j h; simp
  | cons a t ih =>
    intro i j h
    cases i with
    | zero =>
      cases j with
      | zero => exact absurd rfl h
      | succ j => simp [List.set]
    | succ i =>
      cases j with
      | zero => simp [List.set]
      | succ j =>
        simp only [List.set, List.getD_cons_succ]
        exact ih i j (fun e => h (by rw [e]))

/-- Helper: `set` at an in-bounds index updates `getD` there. -/
theorem RSL.getD_set_self {T : Type} (v d : T) :
    ∀ (l : List T) (j : Nat), j < l.length → (l.set j v).getD j d = v := by
  intro l
  induction l with
  | nil => intro j h; simp at h
  | cons a t ih =>
    intro j h
    cases j with
    | zero => simp [List.set]
    | succ j =>
      simp only [List.set, List.getD_cons_succ]
      exact ih j (by simpa using h)

/-- Helper: `getD` inside a replicated list returns the replicated value. -/
theorem RSL.getD_replicate {T : Type} (a d : T) :
    ∀ (n j : Nat), j < n → (List.replicate n a).getD j d = a := by
  intro n
  induction n with
  | zero => intro j h; omega
  | succ n ih =>
    intro j h
    cases j with
    | zero => simp [List.replicate]
    | succ j =>
      simp only [List.replicate, List.getD_cons_succ]
      exact ih j (by omega)

/-- Helper: the initial-fill fold preserves the vector length. -/
theorem RSL.fill_length {T : Type} (v : T) :
    ∀ (m : Nat) (res : List T),
      ((List.range m).foldl (fun r i => r.set i v) res).length = res.length := by
  intro m
  induction m with
  | zero => intro res; simp
  | succ m ih =>
    intro res
    rw [List.range_succ, List.foldl_append]
    simp only [List.foldl_cons, List.foldl_nil, List.length_set]
    exact ih res

/-- Helper: the initial fill writes `v` at every index below the bound. -/
theorem RSL.fill_getD_lt {T : Type} (v d : T) :
    ∀ (m : Nat) (res : List T) (j : Nat), j < m → j < res.length →
      ((List.range m).foldl (fun r i => r.set i v) res).getD j d = v := by
  intro m
  induction m with
  | zero => intro res j h _; omega
  | succ m ih =>
    intro res j h hres
    rw [List.range_succ, List.foldl_append]
    simp only [List.foldl_cons, List.foldl_nil]
    by_cases hj : j = m
    · subst hj
      exact RSL.getD_set_self v d _ j (by rw [RSL.fill_length]; exact hres)
    · rw [RSL.getD_set_ne v d _ m j (fun e => hj e.symm)]
      exact ih res j (by omega) hres

/-- Helper: the initial fill leaves indices at or above the bound unchanged. -/
theorem RSL.fill_getD_ge {T : Type} (v d : T) :
    ∀ (m : Nat) (res : List T) (j : Nat), m ≤ j →
      ((List.range m).foldl (fun r i => r.set i v) res).getD j d = res.getD j d := by
  intro m
  induction m with
  | zero => intro res j h; simp
  | succ m ih =>
    intro res j h
    rw [List.range_succ, List.foldl_append]
    simp only [List.foldl_cons, List.foldl_nil]
    rw [RSL.getD_set_ne v d _ m j (by omega)]
    exact ih res j (by omega)

/-- Helper: the inner loop preserves the vector length. -/
theorem RSL.innerLoop_length {T : Type} [CommRing T] (x : T) :
    ∀ (jmax : Nat) (res : List T), (RSL.innerLoop x jmax res).length = res.length := by
  intro jmax
  induction jmax with
  | zero => intro res; simp [RSL.innerLoop]
  | succ m ih =>
    intro res
    unfold RSL.innerLoop at ih ⊢
    rw [List.range_succ, List.foldl_append]
    simp only [List.foldl_cons, List.foldl_nil, List.length_set]
    exact ih res

/-- Helper: the inner loop writes only to indices `1..=jmax`. -/
theorem RSL.innerLoop_untouched {T : Type} [CommRing T] (x : T) :
    ∀ (jmax : Nat) (res : List T) (j : Nat), j = 0 ∨ jmax < j →
      (RSL.innerLoop x jmax res).getD j 0 = res.getD j 0 := by
  intro jmax
  induction jmax with
  | zero => intro res j h; simp [RSL.innerLoop]
  | succ m ih =>
    intro res j h
    unfold RSL.innerLoop at ih ⊢
    rw [List.range_succ, List.foldl_append]
    simp only [List.foldl_cons, List.foldl_nil]
    rw [RSL.getD_set_ne _ _ _ _ _ (by omega)]
    exact ih res j (by omega)

/-- Helper: one outer-loop step preserves the vector length. -/
theorem RSL.outerStep_length {T : Type} [CommRing T] (coef : List T) (x : T)
    (last_idx nmax : Nat) (r : List T) (i : Nat) :
    (RSL.outerStep coef x last_idx nmax r i).length = r.length := by
  unfold RSL.outerStep
  rw [RSL.innerLoop_length]
  simp

/-- Helper: one outer-loop step writes only to indices `0..=nmax`. -/
theorem RSL.outerStep_untouched {T : Type} [CommRing T] (coef : List T) (x : T)
    (last_idx nmax : Nat) (r : List T) (i : Nat) (j : Nat) (_hj0 : j ≠ 0) (hj : nmax < j) :
    (RSL.outerStep coef x last_idx nmax r i).getD j 0 = r.getD j 0 := by
  unfold RSL.outerStep
  have hle : (if nmax < last_idx - i then nmax else last_idx - i - 1) ≤ nmax := by
    split <;> omega
  rw [RSL.innerLoop_untouched x _ _ j (by omega)]
  rw [RSL.getD_set_ne _ _ _ _ _ (by omega)]

/-- Helper: one outer-loop step performs the Horner update on slot zero. -/
theorem RSL.outerStep_zero {T : Type} [CommRing T] (coef : List T) (x : T)
    (last_idx nmax : Nat) (r : List T) (i : Nat) (hr : 0 < r.length) :
    (RSL.outerStep coef x last_idx nmax r i).getD 0 0
      = x * r.getD 0 0 + coef.getD (last_idx - i - 1) 0 := by
  unfold RSL.outerStep
  rw [RSL.innerLoop_untouched x _ _ 0 (Or.inl rfl)]
  rw [RSL.getD_set_self _ _ _ 0 hr]

/-- Helper: the partial outer loop preserves the vector length. -/
theorem RSL.outerPartial_length {T : Type} [CommRing T] (coef : List T) (x : T)
    (last_idx nmax : Nat) :
    ∀ (m : Nat) (res : List T),
      ((List.range m).foldl (RSL.outerStep coef x last_idx nmax) res).length
        = res.length := by
  intro m
  induction m with
  | zero => intro res; simp
  | succ m ih =>
    intro res
    rw [List.range_succ, List.foldl_append]
    simp only [List.foldl_cons, List.foldl_nil]
    rw [RSL.outerStep_length]
    exact ih res

/-- Helper: the partial outer loop writes only to indices `0..=nmax`. -/
theorem RSL.outerPartial_untouched {T : Type} [CommRing T] (coef : List T) (x : T)
    (last_idx nmax : Nat) :
    ∀ (m : Nat) (res : List T) (j : Nat), j ≠ 0 → nmax < j →
      ((List.range m).foldl (RSL.outerStep coef x last_idx nmax) res).getD j 0
        = res.getD j 0 := by
  intro m
  induction m with
  | zero => intro res j _ _; simp
  | succ m ih =>
    intro res j hj0 hj
    rw [List.range_succ, List.foldl_append]
    simp only [List.foldl_cons, List.foldl_nil]
    rw [RSL.outerStep_untouched coef x last_idx nmax _ m j hj0 hj]
    exact ih res j hj0 hj

/-- Helper: after `m` outer-loop steps, slot zero holds the Horner fold of the
`m` highest non-leading coefficients over the initial slot value. -/
theorem RSL.outerPartial_zero {T : Type} [CommRing T] (coef : List T) (x : T) (nmax : Nat) :
    ∀ (m : Nat) (res : List T), m ≤ coef.length - 1 → 0 < res.length →
      ((List.range m).foldl (RSL.outerStep coef x (coef.length - 1) nmax) res).getD 0 0
        = ((coef.reverse.drop 1).take m).foldl (fun r cf => cf + x * r)
            (res.getD 0 0) := by
  intro m
  induction m with
  | zero => intro res _ _; simp
  | succ m ih =>
    intro res hm hres
    rw [List.range_succ, List.foldl_append]
    simp only [List.foldl_cons, List.foldl_nil]
    rw [RSL.outerStep_zero coef x _ nmax _ m
      (by rw [RSL.outerPartial_length]; exact hres)]
    rw [ih res (by omega) hres]
    have hget : (coef.reverse.drop 1)[m]? = some (coef.getD (coef.length - 1 - m - 1) 0) := by
      rw [List.getElem?_drop]
      rw [List.getElem?_reverse (by omega : 1 + m < coef.length)]
      have hidx : coef.length - 1 - (1 + m) = coef.length - 1 - m - 1 := by omega
      rw [hidx]
      rw [List.getD_eq_getElem coef 0 (by omega : coef.length - 1 - m - 1 < coef.length)]
      exact List.getElem?_eq_getElem _
    rw [List.take_succ, hget]
    simp only [Option.toList_some, List.foldl_append, List.foldl_cons, List.foldl_nil]
    ring

/-- Helper: the factorial-scaling fold preserves the vector length. -/
theorem RSL.scaleFold_length {T : Type} [CommRing T] :
    ∀ (L : List Nat) (st : T × List T),
      ((L.foldl RSL.scaleStep st).2).length = st.2.length := by
  intro L
  induction L with
  | nil => intro st; rfl
  | cons a t ih =>
    intro st
    simp only [List.foldl_cons]
    rw [ih]
    simp [RSL.scaleStep]

/-- Helper: the factorial-scaling fold writes only to the listed indices. -/
theorem RSL.scaleFold_untouched {T : Type} [CommRing T] :
    ∀ (L : List Nat) (st : T × List T) (j : Nat), (∀ i ∈ L, i ≠ j) →
      ((L.foldl RSL.scaleStep st).2).getD j 0 = st.2.getD j 0 := by
  intro L
  induction L with
  | nil => intro st j _; rfl
  | cons a t ih =>
    intro st j h
    simp only [List.foldl_cons]
    rw [ih _ j (fun i hi => h i (List.mem_cons_of_mem a hi))]
    exact RSL.getD_set_ne _ _ _ _ _ (h a (List.mem_cons_self a t))

/-- Helper: the indices iterated by the scaling loop lie in `2..nmax`. -/
theorem RSL.mem_range_drop_two (n i : Nat) (h : i ∈ (List.range n).drop 2) :
    2 ≤ i ∧ i < n := by
  obtain ⟨k, hk⟩ := List.mem_iff_getElem?.mp h
  rw [List.getElem?_drop] at hk
  by_cases h2 : 2 + k < n
  · rw [List.getElem?_range h2] at hk
    obtain rfl := Option.some.inj hk
    omega
  · rw [List.getElem?_eq_none (by simpa using h2)] at hk
    exact absurd hk (Option.noConfusion)

/-- Helper: Horner evaluation as a fold over the reversed tail, seeded with
the leading coefficient. -/
theorem RSL.eval_eq_revFold {T : Type} [CommRing T] (coef : List T) (x : T)
    (h : coef ≠ []) :
    RSL.eval coef x
      = (coef.reverse.drop 1).foldl (fun r cf => cf + x * r)
          (coef.getD (coef.length - 1) 0) := by
  have hc : coef.getD (coef.length - 1) 0 = (coef.getLast?).getD 0 := by
    rw [List.getLast?_eq_getElem?, List.getD_eq_getElem?_getD]
  rcases hrev : coef.reverse with _ | ⟨c, cs⟩
  · exact absurd (List.reverse_eq_nil_iff.mp hrev) h
  · have hlast : coef.getLast? = some c := by
      rw [← List.head?_reverse, hrev]
      rfl
    unfold RSL.eval
    rw [hrev, hc, hlast]
    rfl

/-- Claim C4: for every non-empty coefficient sequence, every point `x`, and
every `n ≥ 1`, `eval_derivs(x, n)` succeeds with a vector of length `n` whose
entry of order zero equals `eval(x)`, and whose entries at orders strictly
greater than the polynomial's degree are exactly the scalar zero. -/
theorem claim_C4_eval_derivs_head_and_tail {T : Type} [CommRing T]
    (coef : List T) (x : T) (n : Nat) (hc : coef ≠ []) (hn : 1 ≤ n) :
    ∃ res, RSL.eval_derivs coef x n = some res ∧
      res.length = n ∧
      res.getD 0 0 = RSL.eval coef x ∧
      ∀ j, coef.length - 1 < j → res.getD j 0 = 0 := by
  have hlen0 : coef.length ≠ 0 := fun e => hc (List.length_eq_zero.mp e)
  have hlen1 : 1 ≤ coef.length := by omega
  have hn0 : n ≠ 0 := by omega
  refine ⟨RSL.scaleLoop (min coef.length n - 1)
      (RSL.outerLoop coef x (coef.length - 1) (min coef.length n - 1)
        ((List.range (min coef.length n - 1 + 1)).foldl
          (fun r i => r.set i (coef.getD (coef.length - 1) 0))
          (List.replicate n 0))), ?_, ?_, ?_, ?_⟩
  · unfold RSL.eval_derivs
    rw [if_neg hlen0, if_neg hn0]
  · unfold RSL.scaleLoop RSL.outerLoop
    rw [RSL.scaleFold_length]
    dsimp only
    rw [RSL.outerPartial_length, RSL.fill_length]
    simp
  · unfold RSL.scaleLoop RSL.outerLoop
    rw [RSL.scaleFold_untouched _ _ 0 (fun i hi => by
      have := RSL.mem_range_drop_two _ i hi
      omega)]
    dsimp only
    rw [RSL.outerPartial_zero coef x (min coef.length n - 1) (coef.length - 1)
      ((List.range (min coef.length n - 1 + 1)).foldl
        (fun r i => r.set i (coef.getD (coef.length - 1) 0))
        (List.replicate n 0))
      (le_refl _)
      (by rw [RSL.fill_length]; simp; omega)]
    rw [RSL.fill_getD_lt _ _ _ _ 0 (by omega) (by simp; omega)]
    have htake : (coef.reverse.drop 1).take (coef.length - 1) = coef.reverse.drop 1 := by
      have hl : (coef.reverse.drop 1).length = coef.length - 1 := by simp
      rw [← hl, List.take_length]
    rw [htake]
    exact (RSL.eval_eq_revFold coef x hc).symm
  · intro j hj
    have hnm : min coef.length n - 1 < j := by omega
    unfold RSL.scaleLoop RSL.outerLoop
    rw [RSL.scaleFold_untouched _ _ j (fun i hi => by
      have := RSL.mem_range_drop_two _ i hi
      omega)]
    dsimp only
    rw [RSL.outerPartial_untouched coef x _ _ _ _ j (by omega) hnm]
    rw [RSL.fill_getD_ge _ _ _ _ j (by omega)]
    by_cases hjn : j < n
    · rw [RSL.getD_replicate _ _ _ _ hjn]
    · rw [List.getD_eq_default _ _ (by simp; omega)]

/-- Witness for C4 at the polynomial `1 + 2x + 3x²` over `ℤ`, the point `1`
and `n = 4`: the derivative vector is computed, and indeed equals
`[6, 8, 6, 0]` — head `6 = eval`, and the order-3 entry beyond the degree is
zero. -/
theorem claim_C4_witness :
    (RSL.eval_derivs ([1, 2, 3] : List ℤ) 1 4).isSome = true ∧
    RSL.eval_derivs ([1, 2, 3] : List ℤ) 1 4 = some [6, 8, 6, 0] := by
  constructor
  · obtain ⟨res, hres, -, -, -⟩ :=
      claim_C4_eval_derivs_head_and_tail ([1, 2, 3] : List ℤ) 1 4 (by decide) (by decide)
    rw [hres]
    rfl
  · decide

/-- Claim C7 (evaluation of the code): requesting zero derivatives panics
(debug-profile `usize` underflow computing `nmax`; in a release profile the
wrapped value still leads to an out-of-bounds `res[0]` for any polynomial of
degree at least one) instead of returning an empty vector. -/
theorem claim_C7_eval_derivs_zero_request_panics {T : Type} [CommRing T]
    (coef : List T) (x : T) :
    RSL.eval_derivs coef x 0 = none := by
  unfold RSL.eval_derivs
  by_cases h : coef.length = 0
  · rw [if_pos h]
  · rw [if_neg h, if_pos rfl]
